import Mathlib

/-!
# Verification of the genai-vectors core pipeline

Shallow embedding of the write-path / indexing / query pipeline of the
`genai-vectors` repository, together with theorems settling the frozen
claims about its specification.

Conventions of the embedding:
* `serde_json::Value` is embedded as `JsonValue`; JSON numbers (`f64` in the
  source) are embedded as `ℚ`; object fields are an association list (the
  source uses `serde_json::Map`, a `BTreeMap` iterated in key order).
* `f32` scores and distances in the query path are embedded as `Int`: the
  claims about them concern only ordering, negation and ring operations,
  which any linearly ordered commutative ring carries faithfully, and `Int`
  keeps kernel evaluation of concrete scenarios tractable. The `f64`
  embedding coordinates carried inside records (`as_f64` values) remain
  `ℚ`.
* Fallible Rust functions returning `Result` are embedded as `Except String`.
* The external regex crate is abstracted as a `RegexEngine` parameter
  (`Regex::new` = `compile`, returning `none` on compilation failure;
  `is_match` = `isMatch`).
-/

/-- Embedding of `serde_json::Value`. Numbers are embedded as `ℚ`. -/
inductive JsonValue where
  | null : JsonValue
  | bool (b : Bool) : JsonValue
  | num (q : ℚ) : JsonValue
  | str (s : String) : JsonValue
  | arr (xs : List JsonValue) : JsonValue
  | obj (fields : List (String × JsonValue)) : JsonValue

mutual

/-- Structural equality of JSON values (`PartialEq` on `serde_json::Value`).
Object fields are compared in order; the source's `serde_json::Map` is a
`BTreeMap`, so its fields are always held sorted by key and map equality
coincides with ordered field-list equality. -/
def jsonBeq : JsonValue → JsonValue → Bool
  | JsonValue.null, JsonValue.null => true
  | JsonValue.bool a, JsonValue.bool b => a == b
  | JsonValue.num a, JsonValue.num b => a == b
  | JsonValue.str a, JsonValue.str b => a == b
  | JsonValue.arr xs, JsonValue.arr ys => jsonBeqList xs ys
  | JsonValue.obj xs, JsonValue.obj ys => jsonBeqFields xs ys
  | _, _ => false

/-- Elementwise equality of JSON arrays. -/
def jsonBeqList : List JsonValue → List JsonValue → Bool
  | [], [] => true
  | x :: xs, y :: ys => jsonBeq x y && jsonBeqList xs ys
  | _, _ => false

/-- Fieldwise equality of JSON objects (fields held in key order). -/
def jsonBeqFields : List (String × JsonValue) → List (String × JsonValue) → Bool
  | [], [] => true
  | (k, v) :: xs, (l, w) :: ys => k == l && jsonBeq v w && jsonBeqFields xs ys
  | _, _ => false

end

instance : BEq JsonValue := ⟨jsonBeq⟩

/-- `Value::get(key)` on a JSON value: field lookup on objects, `None`
otherwise. -/
def jsonGet (v : JsonValue) (key : String) : Option JsonValue :=
  match v with
  | JsonValue.obj fields => fields.lookup key
  | _ => none

/-- `Value::as_f64`: numbers coerce, everything else is `None`. -/
def jsonAsNum : JsonValue → Option ℚ
  | JsonValue.num q => some q
  | _ => none

/-- `Value::as_str`. -/
def jsonAsStr : JsonValue → Option String
  | JsonValue.str s => some s
  | _ => none

/-- `Value::as_bool`. -/
def jsonAsBool : JsonValue → Option Bool
  | JsonValue.bool b => some b
  | _ => none

/-- `Value::as_array`. -/
def jsonAsArr : JsonValue → Option (List JsonValue)
  | JsonValue.arr xs => some xs
  | _ => none

/-- Is the value a JSON string? (`Value::is_string`). -/
def jsonIsStr : JsonValue → Bool
  | JsonValue.str _ => true
  | _ => false

/-- Is the value a JSON number? (`Value::is_number`). -/
def jsonIsNum : JsonValue → Bool
  | JsonValue.num _ => true
  | _ => false

/-- Is the value a JSON boolean? (`Value::is_boolean`). -/
def jsonIsBool : JsonValue → Bool
  | JsonValue.bool _ => true
  | _ => false

/-- Is the value a JSON array? (`Value::is_array`). -/
def jsonIsArr : JsonValue → Bool
  | JsonValue.arr _ => true
  | _ => false

/-! ## Metadata filter (`src/metadata_filter.rs`) -/

/-- `FilterCondition` from `metadata_filter.rs`. -/
inductive FilterCondition where
  | equalsC (field : String) (value : JsonValue)
  | notEqualsC (field : String) (value : JsonValue)
  | inC (field : String) (values : List JsonValue)
  | ninC (field : String) (values : List JsonValue)
  | rangeC (field : String) (min max : Option ℚ)
  | containsC (field : String) (substring : String)
  | regexC (field : String) (pattern : String)
  | existsC (field : String)
  | notExistsC (field : String)

/-- `BooleanOperator` from `metadata_filter.rs`. -/
inductive BooleanOperator where
  | and
  | or
deriving DecidableEq

/-- `MetadataFilter` from `metadata_filter.rs`. -/
structure MetadataFilter where
  conditions : List FilterCondition
  operator : BooleanOperator

/-- `MetadataFilter::new()`: no conditions, `And`. -/
def MetadataFilter.new : MetadataFilter :=
  ⟨[], BooleanOperator.and⟩

/-- The external regex crate, abstracted: `compile` embeds `Regex::new`
(`none` = compilation error), `isMatch` embeds `Regex::is_match`. -/
structure RegexEngine (R : Type) where
  compile : String → Option R
  isMatch : R → String → Bool

/-- `str::contains` (substring containment), as used by the `$contains`
clause. -/
def strContains (s pat : String) : Bool :=
  decide (pat.data <:+: s.data)

/-- `str::split(c)` on the character list of a string: splits at every
occurrence of `c`, keeping empty pieces (so the empty string yields one
empty piece, as in Rust). -/
def splitChar (c : Char) : List Char → List (List Char)
  | [] => [[]]
  | x :: xs =>
      match splitChar c xs with
      | [] => [[]]
      | r :: rs => if x = c then [] :: r :: rs else (x :: r) :: rs

/-- `str::split(c)` as a function on strings. -/
def splitOnChar (c : Char) (s : String) : List String :=
  (splitChar c s.data).map String.mk

/-- `MetadataFilter::get_field_value`: dotted-path traversal of nested
objects (`field.split('.')` then repeated `Value::get`). -/
def getFieldValue (metadata : JsonValue) (field : String) : Option JsonValue :=
  (splitOnChar '.' field).foldlM jsonGet metadata

/-- `MetadataFilter::evaluate_condition` from `metadata_filter.rs`
(lines 110–167), over an abstract regex engine. -/
def evaluateCondition {R : Type} (eng : RegexEngine R) (condition : FilterCondition)
    (metadata : JsonValue) : Bool :=
  match condition with
  | FilterCondition.equalsC field value =>
      ((getFieldValue metadata field).map (fun v => jsonBeq v value)).getD false
  | FilterCondition.notEqualsC field value =>
      ((getFieldValue metadata field).map (fun v => !jsonBeq v value)).getD true
  | FilterCondition.inC field values =>
      ((getFieldValue metadata field).map (fun v => values.any (jsonBeq v))).getD false
  | FilterCondition.ninC field values =>
      ((getFieldValue metadata field).map (fun v => !values.any (jsonBeq v))).getD true
  | FilterCondition.rangeC field mn mx =>
      (((getFieldValue metadata field).bind jsonAsNum).map (fun numv =>
        let minOk := (mn.map (fun m => decide (m ≤ numv))).getD true
        let maxOk := (mx.map (fun m => decide (numv ≤ m))).getD true
        minOk && maxOk)).getD false
  | FilterCondition.containsC field substring =>
      (((getFieldValue metadata field).bind jsonAsStr).map (fun s =>
        strContains s substring)).getD false
  | FilterCondition.regexC field pattern =>
      (((getFieldValue metadata field).bind jsonAsStr).map (fun s =>
        match eng.compile pattern with
        | some re => eng.isMatch re s
        | none => false)).getD false
  | FilterCondition.existsC field =>
      (getFieldValue metadata field).isSome
  | FilterCondition.notExistsC field =>
      (getFieldValue metadata field).isNone

/-- `MetadataFilter::matches` from `metadata_filter.rs` (lines 95–108). -/
def MetadataFilter.matches {R : Type} (eng : RegexEngine R) (f : MetadataFilter)
    (metadata : JsonValue) : Bool :=
  if f.conditions.isEmpty then
    true
  else
    let results := f.conditions.map (fun c => evaluateCondition eng c metadata)
    match f.operator with
    | BooleanOperator.and => results.all id
    | BooleanOperator.or => results.any id

/-- `MetadataFilter::pre_filter_ids` from `metadata_filter.rs`
(lines 181–192). The `HashMap` is embedded as an association list. -/
def preFilterIds {R : Type} (eng : RegexEngine R) (f : MetadataFilter)
    (metadataMap : List (String × JsonValue)) : List String :=
  metadataMap.filterMap (fun p =>
    if MetadataFilter.matches eng f p.2 then some p.1 else none)

/-- `f64::EPSILON`, used by the `$gt` / `$lt` parse cases. -/
def f64Epsilon : ℚ := 1 / 2 ^ 52

/-- One builder step of `TryFrom<Value> for MetadataFilter`: dispatch on a
single `(op, val)` entry of a per-field condition object
(`metadata_filter.rs` lines 215–283). -/
def applyFilterOp (f : MetadataFilter) (field : String) (op : String)
    (val : JsonValue) : Except String MetadataFilter :=
  match op with
  | "$eq" => Except.ok ⟨f.conditions ++ [FilterCondition.equalsC field val], f.operator⟩
  | "$ne" => Except.ok ⟨f.conditions ++ [FilterCondition.notEqualsC field val], f.operator⟩
  | "$in" =>
      match val with
      | JsonValue.arr xs =>
          Except.ok ⟨f.conditions ++ [FilterCondition.inC field xs], f.operator⟩
      | _ => Except.error "$in requires array value"
  | "$nin" =>
      match val with
      | JsonValue.arr xs =>
          Except.ok ⟨f.conditions ++ [FilterCondition.ninC field xs], f.operator⟩
      | _ => Except.error "$nin requires array value"
  | "$gt" =>
      match jsonAsNum val with
      | some n =>
          Except.ok ⟨f.conditions ++ [FilterCondition.rangeC field (some (n + f64Epsilon)) none],
            f.operator⟩
      | none => Except.error "$gt requires numeric value"
  | "$gte" =>
      match jsonAsNum val with
      | some n =>
          Except.ok ⟨f.conditions ++ [FilterCondition.rangeC field (some n) none], f.operator⟩
      | none => Except.error "$gte requires numeric value"
  | "$lt" =>
      match jsonAsNum val with
      | some n =>
          Except.ok ⟨f.conditions ++ [FilterCondition.rangeC field none (some (n - f64Epsilon))],
            f.operator⟩
      | none => Except.error "$lt requires numeric value"
  | "$lte" =>
      match jsonAsNum val with
      | some n =>
          Except.ok ⟨f.conditions ++ [FilterCondition.rangeC field none (some n)], f.operator⟩
      | none => Except.error "$lte requires numeric value"
  | "$contains" =>
      match jsonAsStr val with
      | some s =>
          Except.ok ⟨f.conditions ++ [FilterCondition.containsC field s], f.operator⟩
      | none => Except.error "$contains requires string value"
  | "$regex" =>
      match jsonAsStr val with
      | some s =>
          Except.ok ⟨f.conditions ++ [FilterCondition.regexC field s], f.operator⟩
      | none => Except.error "$regex requires string value"
  | "$exists" =>
      if (jsonAsBool val).getD false then
        Except.ok ⟨f.conditions ++ [FilterCondition.existsC field], f.operator⟩
      else
        Except.ok ⟨f.conditions ++ [FilterCondition.notExistsC field], f.operator⟩
  | _ => Except.error ("Unknown filter operator: " ++ op)

/-- One field entry of `TryFrom<Value> for MetadataFilter`: bare values build
implicit equality, objects are operator maps, other shapes are errors
(`metadata_filter.rs` lines 209–289). -/
def applyFilterField (f : MetadataFilter) (field : String)
    (condition : JsonValue) : Except String MetadataFilter :=
  match condition with
  | JsonValue.str _ =>
      Except.ok ⟨f.conditions ++ [FilterCondition.equalsC field condition], f.operator⟩
  | JsonValue.num _ =>
      Except.ok ⟨f.conditions ++ [FilterCondition.equalsC field condition], f.operator⟩
  | JsonValue.bool _ =>
      Except.ok ⟨f.conditions ++ [FilterCondition.equalsC field condition], f.operator⟩
  | JsonValue.obj condMap =>
      condMap.foldlM (fun acc p => applyFilterOp acc field p.1 p.2) f
  | _ => Except.error ("Invalid filter condition for field: " ++ field)

/-- `TryFrom<Value> for MetadataFilter` (`metadata_filter.rs` lines
202–294): fold the filter object's fields onto the empty filter; non-object
inputs fall through to the empty filter. -/
def metadataFilterTryFrom (value : JsonValue) : Except String MetadataFilter :=
  match value with
  | JsonValue.obj map => map.foldlM (fun acc p => applyFilterField acc p.1 p.2) MetadataFilter.new
  | _ => Except.ok MetadataFilter.new

/-! ## Query executor (`src/query.rs`) -/

/-- `SearchResult` from `query.rs` (lines 212–217). -/
structure SearchResultS where
  id : String
  score : Int
  metadata : JsonValue

/-- Per-shard data loaded by `search_shard`: the shard's `metadata.json`
map, its `id_map.json` pairs, the `metric` string of its `ShardInfo`, and
the shard's ANN index as loaded from `index.faiss` — `annSearch` stands for
`FaissIndex::search` on that index (the FAISS library itself is external to
the repository), returning the `(distances, ids)` pair for a query and a
requested `k`. -/
structure ShardData where
  metadataMap : List (String × JsonValue)
  idMap : List (Int × String)
  metric : String
  annSearch : List Int → Nat → List Int × List Int

/-- The score conversion of `search_shard` (`query.rs` lines 163–167):
`match shard.metric.as_str() { "cosine" => d, "euclidean" => -d, _ => d }`. -/
def scoreOf (metric : String) (d : Int) : Int :=
  if metric = "cosine" then d
  else if metric = "euclidean" then -d
  else d

/-- The post-filter skip test of `search_shard` (`query.rs` lines 157–161):
with pre-filtered candidates, results outside the candidate set are
skipped. -/
def skipByFilter (preFiltered : Option (List String)) (originalId : String) : Bool :=
  match preFiltered with
  | some filteredIds => !filteredIds.contains originalId
  | none => false

/-- The result-collection loop of `search_shard` (`query.rs` lines
147–184): walk the backend's `(distance, faiss_id)` pairs, skip the `-1`
sentinel, translate ids through the id map, apply the post-filter, convert
the score by metric, attach metadata (empty object on miss), and stop once
`topk` results are collected. -/
def collectResults (shard : ShardData) (preFiltered : Option (List String))
    (topk : Nat) : List (Int × Int) → List SearchResultS → List SearchResultS
  | [], acc => acc
  | (d, faissId) :: rest, acc =>
      if faissId = -1 then
        collectResults shard preFiltered topk rest acc
      else
        match shard.idMap.lookup faissId with
        | none => collectResults shard preFiltered topk rest acc
        | some originalId =>
            if skipByFilter preFiltered originalId then
              collectResults shard preFiltered topk rest acc
            else
              let score := scoreOf shard.metric d
              let meta := (shard.metadataMap.lookup originalId).getD (JsonValue.obj [])
              let acc' := acc ++ [⟨originalId, score, meta⟩]
              if topk ≤ acc'.length then acc'
              else collectResults shard preFiltered topk rest acc'

/-- `search_shard` from `query.rs` (lines 70–191). The ANN backend
(`FaissIndex::search`) is an explicit parameter returning the
`(distances, ids)` pair. The metadata pre-filter is disabled in the source
(`query.rs` lines 87–103: the `if let Some(_) = &req.filter` branch is
commented out and yields `None`, annotated "Temporary: disable filtering"),
so `pre_filtered_ids` is `none` whether or not a filter is supplied, and
`search_k` is `req.topk`. -/
def searchShard (shard : ShardData)
    (reqFilter : Option JsonValue) (embedding : List Int) (topk : Nat) : List SearchResultS :=
  let preFilteredIds : Option (List String) :=
    match reqFilter with
    | some _ => none
    | none => none
  let searchK :=
    match preFilteredIds with
    | some _ => topk
    | none => topk
  let found := shard.annSearch embedding searchK
  collectResults shard preFilteredIds topk (found.1.zip found.2) []

/-- The comparator of the merge step (`query.rs` lines 53–55):
`b.score.partial_cmp(&a.score)`, i.e. descending by score. -/
def byScoreDesc (a b : SearchResultS) : Prop :=
  b.score ≤ a.score

instance : DecidableRel byScoreDesc :=
  fun a b => inferInstanceAs (Decidable (b.score ≤ a.score))

instance : IsTotal SearchResultS byScoreDesc :=
  ⟨fun a b => le_total b.score a.score⟩

instance : IsTrans SearchResultS byScoreDesc :=
  ⟨fun _ _ _ hab hbc => le_trans hbc hab⟩

/-- The merge step of `search` (`query.rs` lines 52–56): stable sort of the
concatenated per-shard results by score descending
(`partial_cmp(..).unwrap_or(Equal)` leaves ties in place — Rust's `sort_by`
is stable, as is `List.insertionSort`), then `truncate(topk)`. -/
def mergeResults (allResults : List SearchResultS) (topk : Nat) : List SearchResultS :=
  (allResults.insertionSort byScoreDesc).take topk

/-- `search` from `query.rs` (lines 9–68), for a fixed set of shards, after
the manifest has been loaded: run `search_shard` on each shard in manifest
order, concatenate, and merge. -/
def searchMerged (shards : List ShardData) (reqFilter : Option JsonValue)
    (embedding : List Int) (topk : Nat) : List SearchResultS :=
  mergeResults ((shards.map (fun s => searchShard s reqFilter embedding topk)).flatten) topk

/-- Lexicographic strict order on character lists (the order of string
keys). -/
def charListLt : List Char → List Char → Bool
  | [], [] => false
  | [], _ :: _ => true
  | _ :: _, [] => false
  | a :: as, b :: bs => if a < b then true else if b < a then false else charListLt as bs

/-- Ascending string order: `a ≤ b` iff `b` is not strictly below `a`. -/
def strLe (a b : String) : Bool :=
  !charListLt b.data a.data

/-- The ordering the specification describes for the merge (spec §4.8
step 3): score descending, ties broken by key ascending. -/
def specOrder (a b : SearchResultS) : Prop :=
  b.score < a.score ∨ (a.score = b.score ∧ strLe a.id b.id = true)

instance : DecidableRel specOrder :=
  fun a b =>
    inferInstanceAs (Decidable (b.score < a.score ∨ (a.score = b.score ∧ strLe a.id b.id = true)))

/-- The merge the specification describes (spec §4.8 step 3), written from
the spec's words for comparison with `mergeResults`: concatenate, keep for
each key only its highest-scoring occurrence (the first such occurrence if
several tie), sort by score descending with ties broken by key ascending,
and take the first `k`. -/
def specMergeResults (allResults : List SearchResultS) (topk : Nat) : List SearchResultS :=
  let deduped := allResults.foldl (fun acc r =>
    if (allResults.all fun s => s.id != r.id || decide (s.score ≤ r.score)) &&
        (acc.all fun s => s.id != r.id) then
      acc ++ [r]
    else acc) []
  (deduped.insertionSort specOrder).take topk

/-! ## Flat L2 backend model (external ANN library) -/

/-- Squared L2 distance between two vectors, componentwise over the common
length. -/
def sqL2Dist (v q : List Int) : Int :=
  ((v.zip q).map (fun p => (p.1 - p.2) * (p.1 - p.2))).sum

/-- Ascending-by-distance order on `(distance, id)` pairs. -/
def byDistAsc (a b : Int × Int) : Prop :=
  a.1 ≤ b.1

instance : DecidableRel byDistAsc :=
  fun a b => inferInstanceAs (Decidable (a.1 ≤ b.1))

/-- Modelled from the spec: the external ANN backend (`FaissIndex::search`,
which wraps the FAISS library and is not part of this repository's core
sources) for a flat index under the L2 metric. Spec §4.8 step 2d: "ask the
ANN backend for the top-`k_shard` internal ids with distances" — for a flat
L2 index these are the stored vectors ordered by ascending squared L2
distance to the query, internal ids `[0, n)` in insertion order. -/
def flatL2Search (storedVectors : List (List Int)) (query : List Int) (k : Nat) :
    List Int × List Int :=
  let dists := storedVectors.enum.map (fun p => (sqL2Dist p.2 query, (p.1 : Int)))
  let top := (dists.insertionSort byDistAsc).take k
  (top.map Prod.fst, top.map Prod.snd)

/-! ## Ingest pipeline (`src/ingest.rs`, `src/minio.rs`) -/

/-- `VectorRecord` from `model.rs` (lines 17–24). The `created_at`
timestamp (`DateTime<Utc>`, defaulted to `Utc::now()`) is not referenced by
any claim and is embedded as an opaque integer. -/
structure VectorRecordS where
  id : String
  embedding : List ℚ
  meta : JsonValue
  createdAt : Int

/-- `S3Client::append_object` from `minio.rs` (lines 100–104): it does not
append — it delegates to `put_object`, overwriting the object with the new
data ("For simplicity, we'll just put the object (overwrite)"). -/
def appendObject (_currentContent newData : String) : String :=
  newData

/-- The WAL bytes built by `Ingestor::append` (`ingest.rs` lines 61–65):
one serialized line per record, each terminated by `\n`. Record
serialization (`serde_json::to_vec`) is an abstract parameter `ser`. -/
def walBatchBytes (ser : VectorRecordS → String) (vecs : List VectorRecordS) : String :=
  String.join (vecs.map (fun r => ser r ++ "\n"))

/-- The WAL object `wal/current.ndjson` after one acknowledged
`Ingestor::append` call (`ingest.rs` lines 66–68): the batch bytes are
handed to `append_object`, which overwrites. -/
def walAfterAppend (ser : VectorRecordS → String) (wal : String)
    (vecs : List VectorRecordS) : String :=
  appendObject wal (walBatchBytes ser vecs)

/-- The WAL object after a sequence of acknowledged `append` calls, starting
from an empty object. -/
def walAfterAppends (ser : VectorRecordS → String)
    (batches : List (List VectorRecordS)) : String :=
  batches.foldl (walAfterAppend ser) ""

/-- The lines of an NDJSON object (split on `\n`). -/
def ndjsonLines (content : String) : List String :=
  splitOnChar '\n' content

/-- `SLICE_ROW_LIMIT` from `ingest.rs` (line 13). -/
def SLICE_ROW_LIMIT : Nat := 5000

/-- `SLICE_AGE_LIMIT_S` from `ingest.rs` (line 14). -/
def SLICE_AGE_LIMIT_S : Nat := 30

/-- The in-memory ingest buffer (`Buffer` from `ingest.rs` lines 16–20):
`rows` plus the `first_seen` instant (embedded as a second-resolution `Nat`
clock). The single buffer is shared by every index of the process; the Rust
`rows` holds bare `VectorRecord`s, and each row is tagged here with the
`index` argument of the `append` call that pushed it — a ghost annotation
carried for specification only, which the code itself does not store. -/
structure BufferS where
  rows : List (String × VectorRecordS)
  firstSeen : Nat

/-- One `Ingestor::append` call's buffer interaction (`ingest.rs` lines
70–88), at clock `now`: push the batch under the lock (resetting
`first_seen` if the buffer was empty), then take the whole buffer out if
`rows.len() >= SLICE_ROW_LIMIT` or `first_seen.elapsed() >=
SLICE_AGE_LIMIT_S`. A taken buffer is passed to `write_slice(rows, index)`,
which serializes every row into the one slice blob
`staged/{index}/slice-{ts}` named after the *calling* `index` (`ingest.rs`
lines 92–114); the flushed slice is returned as `(index, rows)`. -/
def appendBuffer (st : BufferS) (now : Nat) (vecs : List VectorRecordS)
    (index : String) : BufferS × Option (String × List (String × VectorRecordS)) :=
  let firstSeen := if st.rows.isEmpty then now else st.firstSeen
  let rows := st.rows ++ vecs.map (fun r => (index, r))
  if SLICE_ROW_LIMIT ≤ rows.length ∨ SLICE_AGE_LIMIT_S ≤ now - firstSeen then
    (⟨[], firstSeen⟩, some (index, rows))
  else
    (⟨rows, firstSeen⟩, none)

/-! ## Shard builder (`src/indexer.rs`) -/

/-- `MAX_VECTORS_PER_SHARD` from `indexer.rs` (line 124). -/
def MAX_VECTORS_PER_SHARD : Nat := 50000

/-- `num_shards` from `indexer.rs` (line 126):
`(total_vectors + MAX_VECTORS_PER_SHARD - 1) / MAX_VECTORS_PER_SHARD`. -/
def numShards (totalLoaded : Nat) : Nat :=
  (totalLoaded + MAX_VECTORS_PER_SHARD - 1) / MAX_VECTORS_PER_SHARD

/-- The number of vectors in shard `i` of a builder run that loaded
`totalLoaded` records (`indexer.rs` lines 139–141): the slice
`[start_idx, end_idx)` with `start_idx = i * MAX_VECTORS_PER_SHARD` and
`end_idx = min(start_idx + MAX_VECTORS_PER_SHARD, total_vectors)`. -/
def shardLen (totalLoaded i : Nat) : Nat :=
  min (i * MAX_VECTORS_PER_SHARD + MAX_VECTORS_PER_SHARD) totalLoaded -
    i * MAX_VECTORS_PER_SHARD

/-- The fields of `IndexConfig` consulted by the per-shard algorithm
selection (`indexer.rs` lines 295–296: `config.algorithm.as_deref()` and
`config.hnsw_threshold`, both optional). -/
structure IndexConfigS where
  dim : Nat
  metric : String
  algorithm : Option String
  hnswThreshold : Option Nat

/-- The `use_hnsw` match of `process_single_shard` (`indexer.rs` lines
297–302). -/
def useHnsw (algorithmName : String) (totalVectors hnswThreshold : Nat) : Bool :=
  match algorithmName with
  | "hnsw_flat" => true
  | "ivfpq" => false
  | "hybrid" => totalVectors < hnswThreshold
  | _ => false

/-- The algorithm chosen for one shard by `process_single_shard`
(`indexer.rs` lines 292–326): the manifest is re-read at the start of the
shard task (before the run's manifest update, so `manifestTotal` is the
pre-run `total_vectors`, 0 if the manifest is absent), `total_vectors =
manifest.total_vectors + shard_vectors.len()`, the algorithm name defaults
to `"ivfpq"` and the threshold to `100_000`. -/
def shardAlgorithm (config : IndexConfigS) (manifestTotal shardVectorCount : Nat) : String :=
  let totalVectors := manifestTotal + shardVectorCount
  let algorithmName := config.algorithm.getD "ivfpq"
  let hnswThreshold := config.hnswThreshold.getD 100000
  if useHnsw algorithmName totalVectors hnswThreshold then "hnsw_flat" else "ivfpq"

/-- The algorithm selection the specification describes (spec §4.5
"Algorithm selection per shard"), written from the spec's words for
comparison with `shardAlgorithm`: `projected = total_vectors + N` where `N`
is the number of records loaded in the run, the same `projected` for every
shard of the run. -/
def specShardAlgorithm (config : IndexConfigS) (manifestTotal totalLoaded : Nat) : String :=
  let projected := manifestTotal + totalLoaded
  let algorithmName := config.algorithm.getD "ivfpq"
  let hnswThreshold := config.hnswThreshold.getD 100000
  match algorithmName with
  | "hnsw_flat" => "hnsw_flat"
  | "ivfpq" => "ivfpq"
  | "hybrid" => if projected < hnswThreshold then "hnsw_flat" else "ivfpq"
  | _ => "ivfpq"

/-- `ShardInfo` from `indexer.rs` (lines 422–432). -/
structure ShardInfoS where
  shardId : String
  indexPath : String
  metadataPath : String
  vectorCount : Nat
  metric : String
  createdAt : String
  algorithm : String

/-- `IndexManifest` from `indexer.rs` (lines 409–420). -/
structure IndexManifestS where
  indexName : String
  dim : Nat
  metric : String
  shards : List ShardInfoS
  totalVectors : Nat
  algorithm : Option String
  hnswThreshold : Option Nat

/-- The publish phase of `process_index_slices` (`indexer.rs` lines
171–179): starting from the manifest read (or freshly created) at publish
time, add each completed shard's `vector_count` to `total_vectors` and push
its `ShardInfo`, then write the manifest back in one `put`. -/
def publishShards (m : IndexManifestS) (shardInfos : List ShardInfoS) : IndexManifestS :=
  shardInfos.foldl
    (fun acc si =>
      { acc with
        totalVectors := acc.totalVectors + si.vectorCount
        shards := acc.shards ++ [si] })
    m

/-- The sum of `vector_count` over a manifest's shards. -/
def shardCountSum (shards : List ShardInfoS) : Nat :=
  (shards.map ShardInfoS.vectorCount).sum

/-! ## PutVectors API (`src/api/vectors.rs`, `src/api.rs`) -/

/-- The record extraction of `put` in `api/vectors.rs` (lines 42–54): pull
`key`, `data.float32` and `metadata` (defaulting to `{}`) out of one
request vector; records missing `key` or `data.float32` are silently
dropped by the surrounding `filter_map`. -/
def extractRecord (v : JsonValue) : Option VectorRecordS := do
  let id ← (jsonGet v "key").bind jsonAsStr
  let data ← ((jsonGet v "data").bind (fun d => jsonGet d "float32")).bind jsonAsArr
  let embedding := data.filterMap jsonAsNum
  let metadata := (jsonGet v "metadata").getD (JsonValue.obj [])
  pure ⟨id, embedding, metadata, 0⟩

/-- The outcome of a `put` call: the HTTP status code and the records
handed to `Ingestor::append` (whose WAL write precedes any later step). -/
structure PutOutcome where
  status : Nat
  ingested : List VectorRecordS

/-- `put` from `api/vectors.rs` (lines 28–85), reduced to its data path
for a well-formed request: convert the request vectors with `filter_map`
and pass them straight to `state.ingest.append`. No metadata schema
validation of any kind is performed between parsing and ingestion; with
the ingest path succeeding, the handler returns `200 OK`. -/
def putVectors (reqVectors : List JsonValue) : PutOutcome :=
  let vectors := reqVectors.filterMap extractRecord
  ⟨200, vectors⟩

/-- `FilterableKey` (the `{name, key_type}` entries of the index config's
`filterable_keys`, spec §6). -/
structure FilterableKeyS where
  name : String
  keyType : String

/-- The per-key type-compatibility check of `validate_metadata_schema` in
`api.rs` (lines 26–60): for each declared filterable key present in the
metadata object, the value's JSON type must match the declared
`key_type`. (The byte-size checks of the same function are not embedded:
they depend on serde's float formatting and no claim exercises them.)
Non-object metadata is accepted unchanged, as in the source's
`if let Value::Object` guard. -/
def validateMetadataTypes (metadata : JsonValue)
    (filterableKeys : List FilterableKeyS) : Except String Unit :=
  match metadata with
  | JsonValue.obj fields =>
      filterableKeys.foldlM
        (fun _ fk =>
          match fields.lookup fk.name with
          | none => Except.ok ()
          | some value =>
              match fk.keyType with
              | "string" =>
                  if jsonIsStr value then Except.ok ()
                  else Except.error ("Key should be string: " ++ fk.name)
              | "number" =>
                  if jsonIsNum value then Except.ok ()
                  else Except.error ("Key should be number: " ++ fk.name)
              | "int64" =>
                  if jsonIsNum value then Except.ok ()
                  else Except.error ("Key should be number: " ++ fk.name)
              | "float64" =>
                  if jsonIsNum value then Except.ok ()
                  else Except.error ("Key should be number: " ++ fk.name)
              | "boolean" =>
                  if jsonIsBool value then Except.ok ()
                  else Except.error ("Key should be boolean: " ++ fk.name)
              | "array" =>
                  if jsonIsArr value then Except.ok ()
                  else Except.error ("Key should be array: " ++ fk.name)
              | _ => Except.error ("Unsupported filterable key type: " ++ fk.keyType))
        ()
  | _ => Except.ok ()

/-! ## Concrete sample inputs used by counterexamples and witnesses -/

/-- A degenerate regex engine whose every pattern fails to compile; it
instantiates the abstract engine at concrete inputs. -/
def noRegex : RegexEngine Unit :=
  ⟨fun _ => none, fun _ _ => false⟩

/-- A concrete stand-in for `serde_json::to_vec` on records:
`Ingestor::append` treats record serialization as an opaque producer of one
newline-free line per record, so any such map exemplifies it. -/
def serById (r : VectorRecordS) : String :=
  r.id

/-- Sample record appended for index `index-a`. -/
def recA : VectorRecordS :=
  ⟨"rec-a", [1], JsonValue.obj [], 0⟩

/-- Sample record appended for index `index-b`. -/
def recB : VectorRecordS :=
  ⟨"rec-b", [2], JsonValue.obj [], 0⟩

/-! ## Claim theorems -/

/-- C2: the claim says a successful `append` adds its records' lines to the
WAL without removing previously acknowledged lines. The code's
`append_object` is `put_object` — an overwrite — so the second acknowledged
append leaves the WAL holding only its own batch: the first batch's line
`"rec-a"` is gone. The first conjunct shows the divergence in general: the
WAL after an append is exactly the new batch's bytes, for every prior WAL
content. -/
theorem wal_append_overwrites_acknowledged_records :
    (∀ (ser : VectorRecordS → String) (wal : String) (vecs : List VectorRecordS),
      walAfterAppend ser wal vecs = walBatchBytes ser vecs) ∧
    walBatchBytes serById [recA] = "rec-a\n" ∧
    walAfterAppends serById [[recA], [recB]] = "rec-b\n" ∧
    ¬ "rec-a" ∈ ndjsonLines (walAfterAppends serById [[recA], [recB]]) := by
  refine ⟨fun ser wal vecs => rfl, rfl, rfl, ?_⟩
  decide

/-- C3: the claim says every record in a slice `staged/{index}/…` was
appended with that index argument. The single shared buffer refutes this: a
record appended for `index-a` at clock 0 stays buffered; an append for
`index-b` at clock 30 trips the age trigger and flushes the whole buffer
into the slice named `staged/index-b/…`, so that slice carries the record
appended for `index-a`. (The first components tag each row with the ghost
index of the `append` call that pushed it.) -/
theorem slice_flush_mixes_records_of_other_indexes :
    appendBuffer ⟨[], 0⟩ 0 [recA] "index-a" = (⟨[("index-a", recA)], 0⟩, none) ∧
    appendBuffer ⟨[("index-a", recA)], 0⟩ 30 [recB] "index-b" =
      (⟨[], 0⟩, some ("index-b", [("index-a", recA), ("index-b", recB)])) ∧
    ("index-a", recA) ∈ [("index-a", recA), ("index-b", recB)] ∧
    "index-a" ≠ "index-b" := by
  refine ⟨rfl, rfl, List.mem_cons_self _ _, ?_⟩
  decide

/-- The metadata value of the schema-violating record of spec scenario S2:
`{lang: 42}` against a declared filterable key `{name: "lang",
key_type: "string"}`. -/
def badMetadata : JsonValue :=
  JsonValue.obj [("lang", JsonValue.num 42)]

/-- The S2 put-vectors request entry carrying `badMetadata`. -/
def badPutVector : JsonValue :=
  JsonValue.obj
    [("data", JsonValue.obj [("float32", JsonValue.arr [JsonValue.num 1])]),
     ("key", JsonValue.str "x"),
     ("metadata", badMetadata)]

/-- The declared filterable-key schema of spec scenario S2. -/
def langStringSchema : List FilterableKeyS :=
  [⟨"lang", "string"⟩]

/-- C7: the claim says a batch with a type-mismatched filterable value is
rejected with `BadRequest` before any side effect. The active handler
(`put` in `api/vectors.rs`) performs no schema validation at all: the S2
record `{lang: 42}` is converted and handed to `Ingestor::append`, whose
WAL write happens before anything else, and the handler answers `200 OK` —
even though the repository's own `validate_metadata_schema` (`api.rs`)
rejects exactly this metadata against the declared schema. -/
theorem put_accepts_schema_mismatched_batch :
    putVectors [badPutVector] = ⟨200, [⟨"x", [1], badMetadata, 0⟩]⟩ ∧
    walBatchBytes serById (putVectors [badPutVector]).ingested = "x\n" ∧
    validateMetadataTypes badMetadata langStringSchema =
      Except.error "Key should be string: lang" :=
  ⟨rfl, rfl, rfl⟩

/-- C8: on a metadata value whose `field` is absent, every positive
operator of `evaluate_condition` — equality (covering `$eq` and the
implicit bare-value form), `$in`, the range conditions compiled from
`$gt`/`$gte`/`$lt`/`$lte`, `$contains`, `$regex` and `$exists: true` —
returns `false`, while `$ne`, `$nin` and `$exists: false` return `true`;
and for every metadata value, a `$regex` clause whose pattern fails to
compile returns `false` instead of raising. -/
theorem missing_field_and_bad_regex_semantics {R : Type} (eng : RegexEngine R)
    (metadata : JsonValue) (field : String)
    (hmiss : getFieldValue metadata field = none) :
    (∀ v, evaluateCondition eng (FilterCondition.equalsC field v) metadata = false) ∧
    (∀ vs, evaluateCondition eng (FilterCondition.inC field vs) metadata = false) ∧
    (∀ mn mx, evaluateCondition eng (FilterCondition.rangeC field mn mx) metadata = false) ∧
    (∀ s, evaluateCondition eng (FilterCondition.containsC field s) metadata = false) ∧
    (∀ p, evaluateCondition eng (FilterCondition.regexC field p) metadata = false) ∧
    evaluateCondition eng (FilterCondition.existsC field) metadata = false ∧
    (∀ v, evaluateCondition eng (FilterCondition.notEqualsC field v) metadata = true) ∧
    (∀ vs, evaluateCondition eng (FilterCondition.ninC field vs) metadata = true) ∧
    evaluateCondition eng (FilterCondition.notExistsC field) metadata = true ∧
    (∀ (md : JsonValue) (p : String), eng.compile p = none →
      evaluateCondition eng (FilterCondition.regexC field p) md = false) := by
  refine ⟨?_, ?_, ?_, ?_, ?_, ?_, ?_, ?_, ?_, ?_⟩
  · intro v; simp [evaluateCondition, hmiss]
  · intro vs; simp [evaluateCondition, hmiss]
  · intro mn mx; simp [evaluateCondition, hmiss]
  · intro s; simp [evaluateCondition, hmiss]
  · intro p; simp [evaluateCondition, hmiss]
  · simp [evaluateCondition, hmiss]
  · intro v; simp [evaluateCondition, hmiss]
  · intro vs; simp [evaluateCondition, hmiss]
  · simp [evaluateCondition, hmiss]
  · intro md p hc
    simp only [evaluateCondition, hc]
    cases (getFieldValue md field).bind jsonAsStr <;> simp

/-- Witness for C8 at a concrete input: the empty metadata object misses
the field `"missing"`, and with the always-failing regex engine the
concrete clauses evaluate as the theorem states. -/
theorem missing_field_and_bad_regex_semantics_witness :
    evaluateCondition noRegex (FilterCondition.equalsC "missing" JsonValue.null)
      (JsonValue.obj []) = false ∧
    evaluateCondition noRegex (FilterCondition.notExistsC "missing")
      (JsonValue.obj []) = true ∧
    evaluateCondition noRegex (FilterCondition.regexC "missing" "(")
      (JsonValue.obj [("missing", JsonValue.str "s")]) = false := by
  have h := missing_field_and_bad_regex_semantics noRegex (JsonValue.obj []) "missing" rfl
  exact ⟨h.1 JsonValue.null, h.2.2.2.2.2.2.2.2.1,
    h.2.2.2.2.2.2.2.2.2 (JsonValue.obj [("missing", JsonValue.str "s")]) "(" rfl⟩

/-- C10: a `MetadataFilter` with no conditions matches every metadata value
and `pre_filter_ids` keeps every key of the metadata map; the filter parsed
from the empty JSON object `{}` is exactly that empty filter. -/
theorem empty_filter_matches_everything {R : Type} (eng : RegexEngine R)
    (f : MetadataFilter) (hempty : f.conditions = []) :
    (∀ metadata, MetadataFilter.matches eng f metadata = true) ∧
    (∀ metadataMap : List (String × JsonValue),
      preFilterIds eng f metadataMap = metadataMap.map Prod.fst) ∧
    metadataFilterTryFrom (JsonValue.obj []) = Except.ok MetadataFilter.new ∧
    MetadataFilter.new.conditions = [] := by
  refine ⟨?_, ?_, rfl, rfl⟩
  · intro metadata; simp [MetadataFilter.matches, hempty]
  · intro metadataMap
    simp only [preFilterIds, MetadataFilter.matches, hempty, List.isEmpty_nil, if_true]
    exact List.filterMap_eq_map Prod.fst ▸ rfl

/-- Witness for C10 at a concrete input: the empty filter matches a sample
metadata value and keeps the sample map's single key. -/
theorem empty_filter_matches_everything_witness :
    MetadataFilter.matches noRegex MetadataFilter.new
      (JsonValue.obj [("a", JsonValue.num 1)]) = true ∧
    preFilterIds noRegex MetadataFilter.new [("k", JsonValue.null)] = ["k"] := by
  have h := empty_filter_matches_everything noRegex MetadataFilter.new rfl
  exact ⟨h.1 _, (h.2.1 [("k", JsonValue.null)]).trans rfl⟩

/-- C6: the publish phase preserves the counting invariant — if the
manifest read at the start of the run has `total_vectors` equal to the sum
of its shards' `vector_count`, the manifest written at the end of the run
does too. -/
theorem publish_preserves_total_vectors_sum (m : IndexManifestS)
    (shardInfos : List ShardInfoS)
    (hinv : m.totalVectors = shardCountSum m.shards) :
    (publishShards m shardInfos).totalVectors =
      shardCountSum (publishShards m shardInfos).shards := by
  induction shardInfos generalizing m with
  | nil => simpa [publishShards] using hinv
  | cons si rest ih =>
      simp only [publishShards, List.foldl_cons] at *
      apply ih
      simp [shardCountSum, hinv]

/-- Witness for C6 at a concrete input: an empty manifest satisfies the
invariant, and publishing one three-vector shard keeps it. -/
theorem publish_preserves_total_vectors_sum_witness :
    (publishShards
      ⟨"demo", 4, "cosine", [], 0, none, none⟩
      [⟨"s1", "p1", "m1", 3, "cosine", "t1", "ivfpq"⟩]).totalVectors =
    shardCountSum (publishShards
      ⟨"demo", 4, "cosine", [], 0, none, none⟩
      [⟨"s1", "p1", "m1", 3, "cosine", "t1", "ivfpq"⟩]).shards :=
  publish_preserves_total_vectors_sum _ _ (by decide)

/-- The hybrid index configuration used by the C5 counterexample: algorithm
preference `hybrid`, threshold left to its default of 100 000. -/
def hybridConfig : IndexConfigS :=
  ⟨4, "cosine", some "hybrid", none⟩

/-- C5 counterexample: a builder run loading `N = 120 000` records over an
absent manifest (`total_vectors = 0`) splits into three shards. The claim's
rule (`projected = total_vectors + N = 120 000 ≥ 100 000`) demands IVF-PQ
for every shard; the code computes `manifest.total_vectors +
shard_vectors.len() = 50 000 < 100 000` for the first shard and builds
HNSW+Flat. -/
theorem hybrid_selection_uses_shard_size_not_run_total :
    numShards 120000 = 3 ∧
    shardLen 120000 0 = 50000 ∧
    shardAlgorithm hybridConfig 0 (shardLen 120000 0) = "hnsw_flat" ∧
    specShardAlgorithm hybridConfig 0 120000 = "ivfpq" ∧
    shardAlgorithm hybridConfig 0 (shardLen 120000 0) ≠
      specShardAlgorithm hybridConfig 0 120000 := by
  decide

/-- The per-shard sizes of a builder run partition the loaded records: the
shard slices `[i·SHARD_MAX, min((i+1)·SHARD_MAX, N))` cover `N` exactly. -/
theorem shardLen_sum (totalLoaded : Nat) :
    ∑ i ∈ Finset.range (numShards totalLoaded), shardLen totalLoaded i = totalLoaded := by
  induction totalLoaded using Nat.strong_induction_on with
  | _ n ih =>
      by_cases h0 : n = 0
      · subst h0
        simp [numShards, MAX_VECTORS_PER_SHARD]
      · by_cases h1 : n ≤ 50000
        · have hns : numShards n = 1 := by
            simp only [numShards, MAX_VECTORS_PER_SHARD]
            exact Nat.div_eq_of_lt_le (by omega) (by omega)
          rw [hns]
          simp only [Finset.sum_range_one, shardLen, MAX_VECTORS_PER_SHARD]
          omega
        · have hrec : numShards n = numShards (n - 50000) + 1 := by
            simp only [numShards, MAX_VECTORS_PER_SHARD]
            rw [show n + 50000 - 1 = (n - 50000 + 50000 - 1) + 50000 by omega,
              Nat.add_div_right _ (by omega)]
          have hih := ih (n - 50000) (by omega)
          rw [hrec, Finset.sum_range_succ']
          have hshift : ∀ i, shardLen n (i + 1) = shardLen (n - 50000) i := by
            intro i
            simp only [shardLen, MAX_VECTORS_PER_SHARD]
            omega
          calc (∑ i ∈ Finset.range (numShards (n - 50000)),
                  shardLen n (i + 1)) + shardLen n 0
              = (∑ i ∈ Finset.range (numShards (n - 50000)),
                  shardLen (n - 50000) i) + shardLen n 0 := by
                rw [Finset.sum_congr rfl (fun i _ => hshift i)]
            _ = (n - 50000) + shardLen n 0 := by rw [hih]
            _ = n := by simp only [shardLen, MAX_VECTORS_PER_SHARD]; omega

/-- C5 amended: per shard, the builder picks the algorithm from
`manifest.total_vectors + (that shard's vector count)` — not from the run's
total `N` — with preference `ivfpq` always IVF-PQ, `hnsw_flat` always
HNSW+Flat, a missing preference defaulting to IVF-PQ, and the threshold
defaulting to 100 000; the per-shard counts partition `N`, and when the run
fits in a single shard the shard's count is `N`, so the code agrees with
the claim's formula exactly in that case. -/
theorem shard_algorithm_per_shard_rule (config : IndexConfigS)
    (manifestTotal totalLoaded i : Nat) :
    shardAlgorithm config manifestTotal (shardLen totalLoaded i) =
      (match config.algorithm.getD "ivfpq" with
       | "hnsw_flat" => "hnsw_flat"
       | "ivfpq" => "ivfpq"
       | "hybrid" =>
           if manifestTotal + shardLen totalLoaded i < config.hnswThreshold.getD 100000
           then "hnsw_flat" else "ivfpq"
       | _ => "ivfpq") ∧
    (∑ j ∈ Finset.range (numShards totalLoaded), shardLen totalLoaded j = totalLoaded) ∧
    (totalLoaded ≤ MAX_VECTORS_PER_SHARD → shardLen totalLoaded 0 = totalLoaded) := by
  refine ⟨?_, shardLen_sum totalLoaded, ?_⟩
  · by_cases h1 : config.algorithm.getD "ivfpq" = "hnsw_flat"
    · simp [shardAlgorithm, useHnsw, h1]
    · by_cases h2 : config.algorithm.getD "ivfpq" = "ivfpq"
      · simp [shardAlgorithm, useHnsw, h1, h2]
      · by_cases h3 : config.algorithm.getD "ivfpq" = "hybrid"
        · simp [shardAlgorithm, useHnsw, h1, h2, h3]
        · simp [shardAlgorithm, useHnsw, h1, h2, h3]
  · intro h
    simp only [shardLen, MAX_VECTORS_PER_SHARD] at *
    omega

/-- Witness for C5 amended at a concrete input: with a pre-run manifest
total of 99 999 and a two-record run (one shard), hybrid projects
`99 999 + 2 ≥ 100 000` and the builder picks IVF-PQ; the single shard
indeed holds both records. -/
theorem shard_algorithm_per_shard_rule_witness :
    shardAlgorithm hybridConfig 99999 (shardLen 2 0) = "ivfpq" ∧
    shardLen 2 0 = 2 := by
  have h := shard_algorithm_per_shard_rule hybridConfig 99999 2 0
  exact ⟨h.1.trans (by decide), h.2.2 (by decide)⟩

/-- Every result the collection loop of `search_shard` emits (beyond its
accumulator) comes from one of the backend's `(distance, id)` pairs: its key
is that id's entry in the id map, its score is the metric-converted
distance, and its metadata is the key's entry in the metadata map (empty
object on miss). -/
theorem collectResults_mem (shard : ShardData) (preFiltered : Option (List String))
    (topk : Nat) :
    ∀ (pairs : List (Int × Int)) (acc : List SearchResultS) (r : SearchResultS),
      r ∈ collectResults shard preFiltered topk pairs acc →
      r ∈ acc ∨ ∃ d faissId, (d, faissId) ∈ pairs ∧
        shard.idMap.lookup faissId = some r.id ∧
        r.score = scoreOf shard.metric d ∧
        r.metadata = (shard.metadataMap.lookup r.id).getD (JsonValue.obj []) := by
  intro pairs
  induction pairs with
  | nil =>
      intro acc r hr
      rw [collectResults] at hr
      exact Or.inl hr
  | cons p rest ih =>
      obtain ⟨d, faissId⟩ := p
      intro acc r hr
      rw [collectResults] at hr
      by_cases h1 : faissId = -1
      · rw [if_pos h1] at hr
        rcases ih acc r hr with h | ⟨d', id', hmem, hl, hs, hm⟩
        · exact Or.inl h
        · exact Or.inr ⟨d', id', List.mem_cons_of_mem _ hmem, hl, hs, hm⟩
      · rw [if_neg h1] at hr
        cases hlook : shard.idMap.lookup faissId with
        | none =>
            simp only [hlook] at hr
            rcases ih acc r hr with h | ⟨d', id', hmem, hl, hs, hm⟩
            · exact Or.inl h
            · exact Or.inr ⟨d', id', List.mem_cons_of_mem _ hmem, hl, hs, hm⟩
        | some originalId =>
            simp only [hlook] at hr
            by_cases h2 : skipByFilter preFiltered originalId = true
            · rw [if_pos h2] at hr
              rcases ih acc r hr with h | ⟨d', id', hmem, hl, hs, hm⟩
              · exact Or.inl h
              · exact Or.inr ⟨d', id', List.mem_cons_of_mem _ hmem, hl, hs, hm⟩
            · rw [if_neg h2] at hr
              have hnew : ∀ s : SearchResultS,
                  s ∈ acc ++ [(⟨originalId, scoreOf shard.metric d,
                    (shard.metadataMap.lookup originalId).getD (JsonValue.obj [])⟩ : SearchResultS)] →
                  s ∈ acc ∨ ∃ d' faissId', (d', faissId') ∈ (d, faissId) :: rest ∧
                    shard.idMap.lookup faissId' = some s.id ∧
                    s.score = scoreOf shard.metric d' ∧
                    s.metadata = (shard.metadataMap.lookup s.id).getD (JsonValue.obj []) := by
                intro s hs
                rcases List.mem_append.mp hs with h | h
                · exact Or.inl h
                · rcases List.mem_singleton.mp h with rfl
                  exact Or.inr ⟨d, faissId, List.mem_cons_self _ _, hlook, rfl, rfl⟩
              by_cases h3 : topk ≤ (acc ++ [(⟨originalId, scoreOf shard.metric d,
                  (shard.metadataMap.lookup originalId).getD (JsonValue.obj [])⟩ : SearchResultS)]).length
              · rw [if_pos h3] at hr
                exact hnew r hr
              · rw [if_neg h3] at hr
                rcases ih _ r hr with h | ⟨d', id', hmem, hl, hs, hm⟩
                · exact hnew r h
                · exact Or.inr ⟨d', id', List.mem_cons_of_mem _ hmem, hl, hs, hm⟩

/-- A shard holding the key `dup` at score 2 (its ANN index returns
distance 2 for internal id 0 under the cosine metric). -/
def dupShardHi : ShardData :=
  ⟨[], [(0, "dup")], "cosine", fun _ _ => ([2], [0])⟩

/-- A second shard holding the same key `dup` at score 1. -/
def dupShardLo : ShardData :=
  ⟨[], [(0, "dup")], "cosine", fun _ _ => ([1], [0])⟩

/-- A shard holding the key `kb` at score 1. -/
def tieShardB : ShardData :=
  ⟨[], [(0, "kb")], "cosine", fun _ _ => ([1], [0])⟩

/-- A shard holding the key `ka` at score 1. -/
def tieShardA : ShardData :=
  ⟨[], [(0, "ka")], "cosine", fun _ _ => ([1], [0])⟩

/-- C1 counterexample: the merge of `search` neither deduplicates keys nor
breaks score ties by key. Over two shards that both hold the key `dup`, the
merged output contains `dup` twice — the claim says the output never
contains two results with the same key — and over two shards tied at the
same score, the keys come out in shard order `kb, ka`, not in the claimed
key-ascending order; the spec-described merge produces `["dup"]` and
`["ka", "kb"]` on the same inputs. -/
theorem merge_keeps_duplicates_and_shard_order :
    (searchMerged [dupShardHi, dupShardLo] none [] 2).map SearchResultS.id = ["dup", "dup"] ∧
    (specMergeResults
        (([dupShardHi, dupShardLo].map (fun s => searchShard s none [] 2)).flatten) 2).map
      SearchResultS.id = ["dup"] ∧
    (searchMerged [tieShardB, tieShardA] none [] 2).map SearchResultS.id = ["kb", "ka"] ∧
    (specMergeResults
        (([tieShardB, tieShardA].map (fun s => searchShard s none [] 2)).flatten) 2).map
      SearchResultS.id = ["ka", "kb"] := by
  refine ⟨by decide, by decide, by decide, by decide⟩

/-- C1 amended: the merged result of `search` is the concatenated per-shard
results stably sorted by score descending and truncated to `k`: the output
is sorted by score descending, its length is `min k` of the concatenation's
length, and every output element is an element of some shard's result list
— with no deduplication of keys and no key tie-break. -/
theorem merged_results_sorted_bounded (shards : List ShardData)
    (reqFilter : Option JsonValue) (embedding : List Int) (topk : Nat) :
    List.Sorted byScoreDesc (searchMerged shards reqFilter embedding topk) ∧
    (searchMerged shards reqFilter embedding topk).length =
      min topk ((shards.map (fun s => searchShard s reqFilter embedding topk)).flatten).length ∧
    ∀ r ∈ searchMerged shards reqFilter embedding topk,
      ∃ s ∈ shards, r ∈ searchShard s reqFilter embedding topk := by
  refine ⟨?_, ?_, ?_⟩
  · exact List.Pairwise.sublist (List.take_sublist _ _)
      (List.sorted_insertionSort byScoreDesc _)
  · simp only [searchMerged, mergeResults, List.length_take,
      (List.perm_insertionSort byScoreDesc _).length_eq]
  · intro r hr
    have h1 : r ∈ (((shards.map (fun s => searchShard s reqFilter embedding topk)).flatten).insertionSort
        byScoreDesc) := (List.take_sublist _ _).subset hr
    have h2 := (List.mem_insertionSort byScoreDesc).mp h1
    rcases List.mem_flatten.mp h2 with ⟨l, hl, hrl⟩
    rcases List.mem_map.mp hl with ⟨s, hs, rfl⟩
    exact ⟨s, hs, hrl⟩

/-- Witness for C1 amended at a concrete input: the single result of a
one-shard query is a member of the merged output and of that shard's
per-shard results. -/
theorem merged_results_sorted_bounded_witness :
    (⟨"dup", 2, JsonValue.obj []⟩ : SearchResultS) ∈ searchMerged [dupShardHi] none [] 1 ∧
    ∃ s ∈ [dupShardHi],
      (⟨"dup", 2, JsonValue.obj []⟩ : SearchResultS) ∈ searchShard s none [] 1 := by
  have he : searchMerged [dupShardHi] none [] 1 =
      [(⟨"dup", 2, JsonValue.obj []⟩ : SearchResultS)] := rfl
  have hm : (⟨"dup", 2, JsonValue.obj []⟩ : SearchResultS) ∈
      searchMerged [dupShardHi] none [] 1 := by
    rw [he]; exact List.mem_singleton.mpr rfl
  exact ⟨hm, (merged_results_sorted_bounded [dupShardHi] none [] 1).2.2 _ hm⟩

/-- The metadata value `{g: "B"}` of the single record of the C4 shard. -/
def mdGroupB : JsonValue :=
  JsonValue.obj [("g", JsonValue.str "B")]

/-- The query filter `{g: {$eq: "A"}}`, which `mdGroupB` fails. -/
def eqAFilter : JsonValue :=
  JsonValue.obj [("g", JsonValue.obj [("$eq", JsonValue.str "A")])]

/-- A one-record shard whose record `x` carries metadata `{g: "B"}`. -/
def c4Shard : ShardData :=
  ⟨[("x", mdGroupB)], [(0, "x")], "cosine", fun _ _ => ([1], [0])⟩

/-- C4: the claim (and spec property 5) says a record is returned under
filter `F` only if `F` holds of its metadata. The filter path of
`search_shard` is disabled in the source (`query.rs` lines 87–103, `None //
Temporary: disable filtering`), so the query with filter `{g: {$eq: "A"}}`
returns the record `x` even though its metadata `{g: "B"}` fails the filter
— the repository's own `MetadataFilter` evaluates it to `false` under every
regex engine. -/
theorem query_returns_records_failing_filter :
    (searchMerged [c4Shard] (some eqAFilter) [] 1).map SearchResultS.id = ["x"] ∧
    (searchMerged [c4Shard] (some eqAFilter) [] 1).map SearchResultS.metadata = [mdGroupB] ∧
    ∀ {R : Type} (eng : RegexEngine R),
      (metadataFilterTryFrom eqAFilter).map
        (fun f => MetadataFilter.matches eng f mdGroupB) = Except.ok false := by
  exact ⟨by decide, rfl, fun {R} eng => rfl⟩

/-- The spec-S6 euclidean shard: records `p = [0,0]` (internal id 0) and
`q = [3,4]` (internal id 1), served by the modelled flat L2 backend. -/
def pqShard : ShardData :=
  ⟨[], [(0, "p"), (1, "q")], "euclidean", flatL2Search [[0, 0], [3, 4]]⟩

/-- C9: every result of `search_shard` carries the raw backend distance as
its score when the shard's metric is `cosine` and the negated distance when
it is `euclidean`; consequently (spec scenario S6) a euclidean index
holding `p = [0,0]` and `q = [3,4]`, queried at `[0,0]` with `k = 2`,
returns `p` before `q` with `score_p = 0 > -25 = score_q`. -/
theorem score_is_distance_cosine_negated_euclidean :
    (∀ (shard : ShardData) (reqFilter : Option JsonValue) (embedding : List Int)
      (topk : Nat) (r : SearchResultS), r ∈ searchShard shard reqFilter embedding topk →
      ∃ d faissId,
        (d, faissId) ∈ (shard.annSearch embedding topk).1.zip (shard.annSearch embedding topk).2 ∧
        shard.idMap.lookup faissId = some r.id ∧
        (shard.metric = "cosine" → r.score = d) ∧
        (shard.metric = "euclidean" → r.score = -d)) ∧
    (searchMerged [pqShard] none [0, 0] 2).map SearchResultS.id = ["p", "q"] ∧
    (searchMerged [pqShard] none [0, 0] 2).map SearchResultS.score = [0, -25] ∧
    ((0 : Int) > -25) := by
  refine ⟨?_, by decide, by decide, by decide⟩
  intro shard reqFilter embedding topk r hr
  have hr' : r ∈ collectResults shard none topk
      ((shard.annSearch embedding topk).1.zip (shard.annSearch embedding topk).2) [] := by
    cases reqFilter <;> simpa [searchShard] using hr
  rcases collectResults_mem shard none topk _ [] r hr' with h | ⟨d, faissId, hmem, hl, hs, _⟩
  · cases h
  · refine ⟨d, faissId, hmem, hl, ?_, ?_⟩
    · intro hm; rw [hm] at hs; simpa [scoreOf] using hs
    · intro hm; rw [hm] at hs; simpa [scoreOf] using hs

/-- Witness for C9 at a concrete input: the first result of the S6 scenario
(`p`, score 0) comes from the backend pair `(0, 0)`. -/
theorem score_is_distance_witness :
    ∃ d faissId,
      (d, faissId) ∈ (pqShard.annSearch [0, 0] 2).1.zip (pqShard.annSearch [0, 0] 2).2 ∧
      pqShard.idMap.lookup faissId =
        some (⟨"p", 0, JsonValue.obj []⟩ : SearchResultS).id ∧
      (pqShard.metric = "cosine" → (⟨"p", 0, JsonValue.obj []⟩ : SearchResultS).score = d) ∧
      (pqShard.metric = "euclidean" →
        (⟨"p", 0, JsonValue.obj []⟩ : SearchResultS).score = -d) := by
  have he : searchShard pqShard none [0, 0] 2 =
      [(⟨"p", 0, JsonValue.obj []⟩ : SearchResultS),
       (⟨"q", -25, JsonValue.obj []⟩ : SearchResultS)] := rfl
  have hm : (⟨"p", 0, JsonValue.obj []⟩ : SearchResultS) ∈
      searchShard pqShard none [0, 0] 2 := by
    rw [he]; exact List.mem_cons_self _ _
  exact (score_is_distance_cosine_negated_euclidean).1 pqShard none [0, 0] 2 _ hm
